import Mathlib

/-!
Shallow embedding of the Store1 moderation workflow:
`.github/scripts/validate_manifest.py` and `.github/scripts/bot_commands.py`.

External effects (GitHub API, filesystem, network, PIL, json) are modelled as
oracle inputs in an environment record; each script's `main` becomes a pure
function from that environment to the list of host actions it issues and its
process exit code.
-/

namespace Store1

/-- A JSON value as produced by Python's `json.loads`.  Numbers are modelled
as integers (no claim involves fractional values); `arr`/`obj` carry only the
payload needed by the scripts (emptiness for truthiness, fields for lookup). -/
inductive JsonVal where
  | null
  | str (s : String)
  | num (n : Int)
  | boolean (b : Bool)
  | arr (elems : List JsonVal)
  | obj (fields : List (String × JsonVal))

/-- Python `dict.get(k)`: `some v` when the key is present, `none` otherwise.
JSON objects from `json.loads` have distinct keys, so first-match lookup. -/
def dictGet (m : List (String × JsonVal)) (k : String) : Option JsonVal :=
  match m.find? (fun kv => kv.fst == k) with
  | some kv => some kv.snd
  | none => none

/-- Python `k in dict`. -/
def hasKey (m : List (String × JsonVal)) (k : String) : Bool :=
  (dictGet m k).isSome

/-- Python `str()` / f-string rendering of a value.  Containers are rendered
approximately (no claim exercises their rendering); scalars are exact. -/
def pyStr : JsonVal → String
  | .null => "None"
  | .str s => s
  | .num n => toString n
  | .boolean true => "True"
  | .boolean false => "False"
  | .arr _ => "<list>"
  | .obj _ => "<dict>"

/-- Rendering of a `dict.get` result inside an f-string (`None` when absent). -/
def optRender : Option JsonVal → String
  | none => "None"
  | some v => pyStr v

/-- Python truthiness of a JSON value. -/
def truthy : JsonVal → Bool
  | .null => false
  | .str s => !(s == "")
  | .num n => !(n == 0)
  | .boolean b => b
  | .arr xs => !xs.isEmpty
  | .obj fs => !fs.isEmpty

/-- Truthiness of a `dict.get` result (`None` is falsy). -/
def optTruthy : Option JsonVal → Bool
  | none => false
  | some v => truthy v

/-- Python `x == s` where `x` is a JSON value (or `None`, when the key was
absent) and `s` a Python `str`: equal exactly when `x` is the same string. -/
def jsonEqStr (x : Option JsonVal) (s : String) : Bool :=
  match x with
  | some (.str t) => t == s
  | _ => false

/-! ### Character-list string primitives (Python `in`, `.index`, `.strip`,
`.startswith`, `.endswith`) -/

/-- `leadsWith pre l`: `pre` is an initial segment of `l`. -/
def leadsWith : List Char → List Char → Bool
  | [], _ => true
  | _ :: _, [] => false
  | a :: as, b :: bs => a == b && leadsWith as bs

/-- Index of the first occurrence of `needle` in the list, if any
(Python `str.index` / the `in` test). -/
def subIdx? (needle : List Char) : List Char → Option Nat
  | [] => if leadsWith needle [] then some 0 else none
  | c :: rest =>
    if leadsWith needle (c :: rest) then some 0
    else (subIdx? needle rest).map (· + 1)

/-- Python `needle in hay`. -/
def strContains (hay needle : String) : Bool :=
  (subIdx? needle.toList hay.toList).isSome

/-- Python `str.strip()` (whitespace trim at both ends). -/
def pyStrip (s : String) : String :=
  ⟨((s.toList.dropWhile Char.isWhitespace).reverse.dropWhile Char.isWhitespace).reverse⟩

/-- Python `str.startswith`. -/
def strStarts (s pre : String) : Bool := leadsWith pre.toList s.toList

/-- Python `str.endswith`. -/
def strEnds (s suf : String) : Bool := leadsWith suf.toList.reverse s.toList.reverse

/-! ### validate_manifest.py -/

def ICON_MAX_SIZE : Nat := 3072
def ICON_WIDTH : Nat := 32
def ICON_HEIGHT : Nat := 32

def REQUIRED_FIELDS : List String :=
  ["package", "name", "author", "version", "category", "description",
   "url", "sha256", "api_level", "permissions", "min_os_version"]

/-- State of a manifest file on disk: missing, present but `json.load` raises,
or present and parsed to a JSON object. -/
inductive ManifestFile where
  | absent
  | malformed (err : String)
  | parsed (m : List (String × JsonVal))

structure ImageInfo where
  format : String
  width : Nat
  height : Nat

/-- State of an icon file: missing, or present with its byte size and the
result of `PIL.Image.open` (`Except.error` models a raised exception). -/
inductive IconStat where
  | absent
  | present (size : Nat) (img : Except String ImageInfo)

/-- Result of `requests.get(url, timeout=20)`: a raised exception, or a
response with status code and the sha256 hex digest of its body bytes. -/
inductive NetResult where
  | failure (err : String)
  | response (status : Nat) (bodyDigest : String)

/-- Oracle inputs of one `validate_manifest.py` run: the PR's changed files,
the filesystem (manifests and icons), the network, and the PR's labels.
The `GITHUB_TOKEN`/`GITHUB_REPOSITORY`/PR-number preamble is assumed to have
succeeded (its early exits concern no claim). -/
structure ValidateEnv where
  changedFiles : List String
  manifestFile : String → ManifestFile
  iconStat : String → IconStat
  net : JsonVal → NetResult
  labels : List String

def msgFileNotFound (p : String) : String := "❌ " ++ p ++ ": file not found"
def msgInvalidJson (p e : String) : String := "❌ " ++ p ++ ": invalid JSON (" ++ e ++ ")"
def msgMissingField (p f : String) : String := "❌ " ++ p ++ ": missing required field '" ++ f ++ "'"
def msgIconMissing (p ip : String) : String := "❌ " ++ p ++ ": icon file missing (" ++ ip ++ ")"
def msgIconSize (ip : String) : String := "❌ " ++ ip ++ ": file size exceeds 2048 bytes"
def msgIconNotPng (ip : String) : String := "❌ " ++ ip ++ ": icon is not PNG"
def msgIconDims (ip : String) : String := "❌ " ++ ip ++ ": icon size must be 32x32"
def msgIconReadFail (ip e : String) : String := "❌ " ++ ip ++ ": failed to read icon (" ++ e ++ ")"
def msgHttp (p : String) (status : Nat) : String := "❌ " ++ p ++ ": URL returned HTTP " ++ toString status
def msgShaMismatch (p expected got : String) : String :=
  "❌ " ++ p ++ ": sha256 mismatch (expected " ++ expected ++ ", got " ++ got ++ ")"
def msgDownloadFail (p e : String) : String := "❌ " ++ p ++ ": failed to download file (" ++ e ++ ")"

/-- The required-field loop: one defect per required field whose key is not in
the manifest dict, in declaration order. -/
def fieldErrors (p : String) (m : List (String × JsonVal)) : List String :=
  REQUIRED_FIELDS.filterMap (fun field =>
    if hasKey m field then none else some (msgMissingField p field))

/-- The icon checks: missing file is one defect; otherwise the size check, and
then (unless `Image.open` raises) the format and dimension checks, each
appending independently. -/
def iconErrors (icons : String → IconStat) (p ip : String) : List String :=
  match icons ip with
  | .absent => [msgIconMissing p ip]
  | .present size img =>
    (if size > ICON_MAX_SIZE then [msgIconSize ip] else [])
      ++ match img with
         | .error e => [msgIconReadFail ip e]
         | .ok info =>
           (if info.format ≠ "PNG" then [msgIconNotPng ip] else [])
             ++ (if info.width ≠ ICON_WIDTH ∨ info.height ≠ ICON_HEIGHT
                 then [msgIconDims ip] else [])

/-- The remote-hash check: skipped when `url` is falsy; otherwise a transport
failure, a non-200 status, or a digest mismatch each yield one defect. -/
def urlErrors (net : JsonVal → NetResult) (p : String) (url declared : Option JsonVal) :
    List String :=
  match url with
  | none => []
  | some u =>
    if truthy u then
      match net u with
      | .failure e => [msgDownloadFail p e]
      | .response status digest =>
        if status ≠ 200 then [msgHttp p status]
        else if jsonEqStr declared digest then []
        else [msgShaMismatch p (optRender declared) digest]
    else []

/-- The per-manifest body of the validation loop: missing file and parse
failure each yield a single defect and `continue`; otherwise the field, icon,
and url checks all run and accumulate. -/
def validateManifest (env : ValidateEnv) (p : String) : List String :=
  match env.manifestFile p with
  | .absent => [msgFileNotFound p]
  | .malformed e => [msgInvalidJson p e]
  | .parsed m =>
    fieldErrors p m
      ++ iconErrors env.iconStat p ("icons/" ++ optRender (dictGet m "package") ++ ".png")
      ++ urlErrors env.net p (dictGet m "url") (dictGet m "sha256")

/-- The `errors` list accumulated by the loop over all changed manifests. -/
def validateErrors (env : ValidateEnv) : List String → List String
  | [] => []
  | p :: ps => validateManifest env p ++ validateErrors env ps

/-- A changed file selected for validation: under `manifests/`, ending `.json`. -/
def isManifestPath (f : String) : Bool :=
  strStarts f "manifests/" && strEnds f ".json"

/-- An effect issued to the Review Host (or the validation subprocess call). -/
inductive HostAction where
  | postComment (body : String)
  | removeLabel (label : String)
  | addLabel (label : String)
  | runValidation
  | merge
  | closePR
deriving DecidableEq

/-- Outcome of one script run: the host actions in issue order, and the
process exit code. -/
structure RunResult where
  actions : List HostAction
  exitCode : Nat
deriving DecidableEq

def validationSuccessMsg : String :=
  "✅ Manifest validation successful.\nThe manifest is now locked for moderator review."

def validationFailMsg (errors : List String) : String :=
  "Manifest validation failed:\n\n" ++ String.intercalate "\n" errors
    ++ "\n\nFix the issues and comment `@bot check` to re-run validation."

/-- `validate_manifest.py main` after the GitHub preamble: filter the changed
files, validate each, then update labels and post the summary comment.
Exit code 1 exactly on a non-empty defect list. -/
def validateMain (env : ValidateEnv) : RunResult :=
  let manifests := env.changedFiles.filter isManifestPath
  if manifests.isEmpty then ⟨[], 0⟩
  else
    let errors := validateErrors env manifests
    if errors.isEmpty then
      ⟨(if env.labels.contains "Invalid manifest" then [.removeLabel "Invalid manifest"] else [])
        ++ (if env.labels.contains "On review" then [] else [.addLabel "On review"])
        ++ [.postComment validationSuccessMsg], 0⟩
    else
      ⟨(if env.labels.contains "On review" then [.removeLabel "On review"] else [])
        ++ (if env.labels.contains "Invalid manifest" then [] else [.addLabel "Invalid manifest"])
        ++ [.postComment (validationFailMsg errors)], 1⟩

/-! ### bot_commands.py -/

/-- An issue comment as returned by the host API, oldest first. -/
structure Comment where
  author : String
  body : String
deriving DecidableEq

/-- A parsed ledger entry: the path → digest mapping stored in a marker
comment. -/
abbrev Ledger := List (String × JsonVal)

def MARKER_START : String := "<!-- MANIFEST_HASHES"
def MARKER_END : String := "END MANIFEST_HASHES -->"

/-- The marker-extraction inside `find_manifest_hash_comment`'s `try` block:
text between `body.index(MARKER_START) + len(MARKER_START)` and the next
occurrence of the end marker, stripped.  `none` models both a missing start
marker and the `ValueError` raised when the end marker is absent. -/
def extractBlock (body : String) : Option String :=
  let cs := body.toList
  match subIdx? MARKER_START.toList cs with
  | none => none
  | some i =>
    let tail := cs.drop (i + MARKER_START.toList.length)
    match subIdx? MARKER_END.toList tail with
    | none => none
    | some j => some (pyStrip ⟨tail.take j⟩)

/-- The loop of `find_manifest_hash_comment` over an already-reversed comment
list: the author is never consulted; a body containing the start marker whose
delimited text fails to extract or to parse is skipped (`except: continue`).
`jsonLoads` is the oracle for `json.loads` restricted to the ledger protocol:
`some` a mapping on a successful parse to a JSON object, `none` on a raised
`JSONDecodeError` (a parse to a non-object value never arises in the
protocol and is outside this model). -/
def findHashIn (jsonLoads : String → Option Ledger) :
    List Comment → Option (Comment × Ledger)
  | [] => none
  | c :: rest =>
    if strContains c.body MARKER_START then
      match (extractBlock c.body).bind jsonLoads with
      | some d => some (c, d)
      | none => findHashIn jsonLoads rest
    else findHashIn jsonLoads rest

/-- `find_manifest_hash_comment(comments)`: scan the comments most recent
first (the host lists them oldest first; the source iterates `reversed`). -/
def find_manifest_hash_comment (jsonLoads : String → Option Ledger)
    (comments : List Comment) : Option (Comment × Ledger) :=
  findHashIn jsonLoads comments.reverse

def staleMissingMsg (p : String) : String := p ++ ": current file missing in checkout"
def staleChangedMsg (p : String) : String := p ++ ": file changed after validation"

/-- One iteration of the stored-vs-current comparison loop: `current` is the
`compute_local_hashes` result for `p` (`none` when reading the file raised,
e.g. it is missing).  Python's `if not current` also treats an empty digest
string as missing. -/
def staleMsg? (stored : Ledger) (current : Option String) (p : String) : Option String :=
  match current with
  | none => some (staleMissingMsg p)
  | some cur =>
    if cur == "" then some (staleMissingMsg p)
    else if jsonEqStr (dictGet stored p) cur then none
    else some (staleChangedMsg p)

/-- The accumulated `mismatch_msgs` over the PR's manifest paths. -/
def mismatchMsgs (stored : Ledger) (localHash : String → Option String)
    (paths : List String) : List String :=
  paths.filterMap (fun p => staleMsg? stored (localHash p) p)

def authRejectMsg (moderator : String) : String :=
  "❌ Only @" ++ moderator ++ " can approve or deny PRs."
def notOnReviewMsg : String :=
  "❌ This PR is not marked 'On review'. Approval is not allowed. Please ensure the manifest is validated and locked before approving."
def mustValidateMsg : String :=
  "❌ No stored manifest hashes found. The PR must be validated with `@bot check` first."
def checkStartMsg (u : String) : String :=
  "🔁 Running manifest validation as requested by @" ++ u ++ "..."
def checkDoneMsg (valExit : Nat) : String :=
  if valExit == 0 then "✅ Validation completed."
  else "❌ Validation completed with errors. See above comments."
def staleReportMsg (msgs : List String) : String :=
  "❌ Cannot proceed: manifests have changed since validation:\n\n"
    ++ String.intercalate "\n" msgs ++ "\n\nPlease run `@bot check` again."
def mergedMsg : String := "✅ PR approved and merged by moderator."
def mergeFailMsg (e : String) : String := "❌ Failed to merge PR: " ++ e
def closedMsg : String := "❌ PR rejected and closed by moderator."
def closeFailMsg (e : String) : String := "❌ Failed to close PR: " ++ e
def unknownCmdMsg : String :=
  "ℹ️ Unknown command. Supported commands: `@bot check`, `@bot allow`, `@bot deny`."

/-- Oracle inputs of one `bot_commands.py` run (after the GitHub preamble):
the configured moderator (`BOT_USER`), the triggering comment's body and
author, the PR's labels, the issue's comments (oldest first), the PR's
changed files, `compute_local_hashes` per path (`none` when reading raised),
the `json.loads` oracle, and whether `pr.merge` / `pr.edit(state="closed")`
raise (`some` an exception message) or succeed (`none`). -/
structure BotEnv where
  moderator : String
  commentBody : String
  commentUser : String
  labels : List String
  comments : List Comment
  changedFiles : List String
  localHash : String → Option String
  jsonLoads : String → Option Ledger
  mergeRaises : Option String
  closeRaises : Option String

/-- `bot_commands.py main` after the GitHub preamble.  `valExit` is the exit
code of the `validate_manifest.py` subprocess run by the `check` branch.
Mirrors the source's dispatch order: no `@bot` mention → exit 0; `@bot check`
→ run validation, report, exit 0 regardless of `valExit`; `@bot allow`/`@bot
deny` → authorization, `On review` label, stored-hash lookup, staleness
comparison, then merge/close; anything else → unknown-command reply. -/
def botMain (env : BotEnv) (valExit : Nat) : RunResult :=
  let body := pyStrip env.commentBody
  if !strContains body "@bot" then ⟨[], 0⟩
  else if strContains body "@bot check" then
    ⟨[.postComment (checkStartMsg env.commentUser), .runValidation,
      .postComment (checkDoneMsg valExit)], 0⟩
  else if strContains body "@bot allow" || strContains body "@bot deny" then
    if env.commentUser ≠ env.moderator then
      ⟨[.postComment (authRejectMsg env.moderator)], 0⟩
    else if "On review" ∉ env.labels then
      ⟨[.postComment notOnReviewMsg], 0⟩
    else
      match find_manifest_hash_comment env.jsonLoads env.comments with
      | none => ⟨[.postComment mustValidateMsg], 0⟩
      | some (_, stored) =>
        let manifestPaths := env.changedFiles.filter isManifestPath
        let msgs := mismatchMsgs stored env.localHash manifestPaths
        if !msgs.isEmpty then
          ⟨[.postComment (staleReportMsg msgs),
            .removeLabel "On review", .addLabel "Invalid manifest"], 0⟩
        else if strContains body "@bot allow" then
          match env.mergeRaises with
          | none =>
            ⟨[.merge, .removeLabel "On review", .addLabel "Approved",
              .postComment mergedMsg], 0⟩
          | some e => ⟨[.merge, .postComment (mergeFailMsg e)], 1⟩
        else
          match env.closeRaises with
          | none =>
            ⟨[.closePR, .removeLabel "On review", .addLabel "Rejected",
              .postComment closedMsg], 0⟩
          | some e => ⟨[.closePR, .postComment (closeFailMsg e)], 1⟩
  else ⟨[.postComment unknownCmdMsg], 0⟩

/-- The bodies of the comments a run posted, in order. -/
def postedBodies : List HostAction → List String
  | [] => []
  | .postComment s :: rest => s :: postedBodies rest
  | _ :: rest => postedBodies rest

/-! ### Concrete instances used by witnesses and counterexamples -/

def ledgerA : Ledger := [("manifests/a.json", JsonVal.str "d1")]

/-- A `json.loads` oracle that parses the block text `LEDGERA` to `ledgerA`
and fails on everything else. -/
def jsonLoadsA : String → Option Ledger :=
  fun s => if s == "LEDGERA" then some ledgerA else none

def markerBodyA : String := "<!-- MANIFEST_HASHES LEDGERA END MANIFEST_HASHES -->"

def badMarkerBody : String := "<!-- MANIFEST_HASHES garbage END MANIFEST_HASHES -->"

def commentA : Comment := ⟨"contributor", markerBodyA⟩

/-- A manifest with every required field key present but `description`
explicitly `null`. -/
def manifestNullDesc : List (String × JsonVal) :=
  [("package", JsonVal.str "foo"), ("name", JsonVal.str "Foo"),
   ("author", JsonVal.str "ann"), ("version", JsonVal.str "1.0"),
   ("category", JsonVal.str "tools"), ("description", JsonVal.null),
   ("url", JsonVal.str "http://x"), ("sha256", JsonVal.str "h1"),
   ("api_level", JsonVal.num 1), ("permissions", JsonVal.arr []),
   ("min_os_version", JsonVal.str "1.0")]

/-- A run whose single manifest is `manifestNullDesc`, whose icon conforms,
and whose download matches the declared digest. -/
def venvClean : ValidateEnv where
  changedFiles := ["manifests/foo.json"]
  manifestFile := fun p => if p == "manifests/foo.json" then .parsed manifestNullDesc else .absent
  iconStat := fun p => if p == "icons/foo.png" then .present 100 (.ok ⟨"PNG", 32, 32⟩) else .absent
  net := fun u => match u with
    | .str "http://x" => .response 200 "h1"
    | _ => .failure "no network"
  labels := []

/-- A run whose single manifest fails to parse. -/
def venvBad : ValidateEnv where
  changedFiles := ["manifests/bad.json"]
  manifestFile := fun _ => .malformed "Expecting value"
  iconStat := fun _ => .absent
  net := fun _ => .failure "no network"
  labels := []

/-- An `allow` by the moderator on an `On review` PR with a recorded ledger
whose single manifest has since changed (`d1` recorded, `d2` live). -/
def benvStale : BotEnv where
  moderator := "Artyomka628"
  commentBody := "@bot allow"
  commentUser := "Artyomka628"
  labels := ["On review"]
  comments := [commentA]
  changedFiles := ["manifests/a.json"]
  localHash := fun p => if p == "manifests/a.json" then some "d2" else none
  jsonLoads := jsonLoadsA
  mergeRaises := none
  closeRaises := none

def benvNotOnReview : BotEnv := { benvStale with labels := [] }
def benvNoLedger : BotEnv := { benvStale with comments := [] }
def benvNonMod : BotEnv := { benvStale with commentUser := "mallory" }
def benvVacuous : BotEnv := { benvStale with changedFiles := ["README.md"] }
def benvCheck : BotEnv := { benvStale with commentBody := "@bot check", commentUser := "alice" }

/-- The thread as a later `allow` run sees it when its comments are exactly
what a defect-free validation run posted. -/
def benvAfterSuccess : BotEnv :=
  { benvStale with comments := [⟨"github-actions", validationSuccessMsg⟩] }

/-- An icon that violates the size ceiling and the format rule at once. -/
def iconsOversizedJpeg : String → IconStat :=
  fun _ => IconStat.present 5000 (.ok ⟨"JPEG", 32, 32⟩)

/-- The `mismatch_msgs` list an allow/deny run computes once it has a stored
ledger: one reason per stale manifest path of the PR. -/
def gateMsgs (env : BotEnv) (stored : Ledger) : List String :=
  mismatchMsgs stored env.localHash (env.changedFiles.filter isManifestPath)

/-! ## Helper lemmas -/

theorem leadsWith_trans {a b c : List Char} (h1 : leadsWith a b = true)
    (h2 : leadsWith b c = true) : leadsWith a c = true := by
  induction a generalizing b c with
  | nil => rfl
  | cons x xs ih =>
    cases b with
    | nil => simp [leadsWith] at h1
    | cons y ys =>
      cases c with
      | nil => simp [leadsWith] at h2
      | cons z zs =>
        simp only [leadsWith, Bool.and_eq_true, beq_iff_eq] at h1 h2 ⊢
        exact ⟨h1.1.trans h2.1, ih h1.2 h2.2⟩

theorem subIdx?_mono {n1 n2 : List Char} (hpre : leadsWith n1 n2 = true) :
    ∀ {l : List Char}, (subIdx? n2 l).isSome = true → (subIdx? n1 l).isSome = true := by
  intro l
  induction l with
  | nil =>
    intro h
    cases n2 with
    | cons _ _ => simp [subIdx?, leadsWith] at h
    | nil =>
      cases n1 with
      | cons _ _ => simp [leadsWith] at hpre
      | nil => simp [subIdx?, leadsWith]
  | cons c rest ih =>
    simp only [subIdx?]
    intro h
    by_cases h1 : leadsWith n1 (c :: rest) = true
    · rw [if_pos h1]; rfl
    · rw [if_neg h1]
      by_cases h2 : leadsWith n2 (c :: rest) = true
      · exact absurd (leadsWith_trans hpre h2) h1
      · rw [if_neg h2] at h
        simp only [Option.isSome_map'] at h ⊢
        exact ih h

theorem strContains_mono {hay n1 n2 : String}
    (hpre : leadsWith n1.toList n2.toList = true)
    (h : strContains hay n2 = true) : strContains hay n1 = true :=
  subIdx?_mono hpre h

theorem contains_bot_of_allow {body : String}
    (h : strContains body "@bot allow" = true) : strContains body "@bot" = true :=
  strContains_mono (by decide) h

theorem contains_bot_of_deny {body : String}
    (h : strContains body "@bot deny" = true) : strContains body "@bot" = true :=
  strContains_mono (by decide) h

theorem contains_bot_of_check {body : String}
    (h : strContains body "@bot check" = true) : strContains body "@bot" = true :=
  strContains_mono (by decide) h

theorem contains_bot_of_cmd {body : String}
    (h : (strContains body "@bot allow" || strContains body "@bot deny") = true) :
    strContains body "@bot" = true := by
  rcases Bool.or_eq_true_iff.mp h with h' | h'
  · exact contains_bot_of_allow h'
  · exact contains_bot_of_deny h'

theorem strContains_of_extract {body t : String} (h : extractBlock body = some t) :
    strContains body MARKER_START = true := by
  unfold strContains
  cases hs : subIdx? MARKER_START.toList body.toList with
  | none => exact absurd ((by simp only [extractBlock, hs] : extractBlock body = none) ▸ h) (by simp)
  | some i => simp

theorem postedBodies_append (l1 l2 : List HostAction) :
    postedBodies (l1 ++ l2) = postedBodies l1 ++ postedBodies l2 := by
  induction l1 with
  | nil => rfl
  | cons a rest ih => cases a <;> simp [postedBodies, ih]

theorem validateErrors_append (env : ValidateEnv) (l1 l2 : List String) :
    validateErrors env (l1 ++ l2) = validateErrors env l1 ++ validateErrors env l2 := by
  induction l1 with
  | nil => rfl
  | cons p ps ih => simp [validateErrors, ih]

/-- Two strings of shape `a ++ x` and `a ++ y` differ when `x` and `y` have
different lengths. -/
theorem append_ne_of_length_ne {a x y : String} (h : x.length ≠ y.length) :
    a ++ x ≠ a ++ y := by
  intro he
  apply h
  have := congrArg String.length he
  rw [String.length_append, String.length_append] at this
  omega

theorem msgIconSize_ne_notPng (ip : String) : msgIconSize ip ≠ msgIconNotPng ip := by
  unfold msgIconSize msgIconNotPng
  exact append_ne_of_length_ne (by decide)

theorem msgIconSize_ne_dims (ip : String) : msgIconSize ip ≠ msgIconDims ip := by
  unfold msgIconSize msgIconDims
  exact append_ne_of_length_ne (by decide)

theorem msgIconNotPng_ne_dims (ip : String) : msgIconNotPng ip ≠ msgIconDims ip := by
  unfold msgIconNotPng msgIconDims
  exact append_ne_of_length_ne (by decide)

/-- The missing-field `filterMap` over any field list as filter-then-map. -/
theorem missing_filterMap_eq (p : String) (m : List (String × JsonVal)) :
    ∀ l : List String,
      l.filterMap (fun f => if hasKey m f then none else some (msgMissingField p f))
        = (l.filter (fun f => !hasKey m f)).map (msgMissingField p) := by
  intro l
  induction l with
  | nil => rfl
  | cons f fs ih =>
    cases hf : hasKey m f with
    | true => simp [List.filterMap_cons, List.filter_cons, hf, ih]
    | false => simp [List.filterMap_cons, List.filter_cons, hf, ih]

/-- The required-field loop as filter-then-map. -/
theorem fieldErrors_eq_filter_map (p : String) (m : List (String × JsonVal)) :
    fieldErrors p m
      = (REQUIRED_FIELDS.filter (fun f => !hasKey m f)).map (msgMissingField p) :=
  missing_filterMap_eq p m REQUIRED_FIELDS

/-- `msgMissingField p` is injective in the field name. -/
theorem msgMissingField_inj (p : String) : Function.Injective (msgMissingField p) := by
  intro f1 f2 h
  unfold msgMissingField at h
  have hd := congrArg String.data h
  simp only [String.data_append, List.append_assoc] at hd
  have h1 := List.append_cancel_left hd
  have h2 := List.append_cancel_left h1
  have h3 := List.append_cancel_left h2
  have h4 := List.append_cancel_right h3
  calc f1 = ⟨f1.data⟩ := rfl
    _ = ⟨f2.data⟩ := by rw [h4]
    _ = f2 := rfl

/-! ## Claims -/

/-- C6 (counterexample): a manifest whose eleven required-field keys are all
present but whose `description` is explicitly `null` yields no missing-field
defect — and in `venvClean` no defect at all, so the run takes the
zero-defect approval path (`validate_manifest.py` checks `field not in
manifest`, never the value). -/
theorem C6_null_field_counterexample :
    dictGet manifestNullDesc "description" = some JsonVal.null
    ∧ fieldErrors "manifests/foo.json" manifestNullDesc = []
    ∧ validateManifest venvClean "manifests/foo.json" = []
    ∧ (validateMain venvClean).exitCode = 0 :=
  ⟨rfl, rfl, rfl, rfl⟩

/-- C6 (amended): for every manifest that parses, `validate` reports exactly
one missing-field defect per required field whose key is absent (report-all,
in field order), and a manifest gets zero field defects exactly when every
required field key is present — presence of the key suffices, a `null` value
is accepted. -/
theorem C6_missing_field_defects (p : String) (m : List (String × JsonVal)) :
    fieldErrors p m
      = (REQUIRED_FIELDS.filter (fun f => !hasKey m f)).map (msgMissingField p)
    ∧ (∀ f ∈ REQUIRED_FIELDS,
        (fieldErrors p m).count (msgMissingField p f) = if hasKey m f then 0 else 1)
    ∧ (fieldErrors p m = [] ↔ ∀ f ∈ REQUIRED_FIELDS, hasKey m f = true) := by
  refine ⟨fieldErrors_eq_filter_map p m, ?_, ?_⟩
  · intro f hf
    rw [fieldErrors_eq_filter_map, List.count_map_of_injective _ _ (msgMissingField_inj p)]
    cases hk : hasKey m f with
    | true =>
      rw [if_pos rfl]
      refine List.count_eq_zero.mpr ?_
      intro hmem
      have := (List.mem_filter.mp hmem).2
      rw [hk] at this
      simp at this
    | false =>
      rw [if_neg (by simp)]
      refine List.count_eq_one_of_mem ?_ ?_
      · exact List.Nodup.filter _ (by decide)
      · exact List.mem_filter.mpr ⟨hf, by rw [hk]; rfl⟩
  · rw [fieldErrors_eq_filter_map]
    constructor
    · intro h f hf
      have hfil : REQUIRED_FIELDS.filter (fun f => !hasKey m f) = [] :=
        List.map_eq_nil_iff.mp h
      by_contra hk
      have : f ∈ REQUIRED_FIELDS.filter (fun f => !hasKey m f) :=
        List.mem_filter.mpr ⟨hf, by simp [Bool.not_eq_true] at hk ⊢; exact hk⟩
      rw [hfil] at this
      simp at this
    · intro h
      have : REQUIRED_FIELDS.filter (fun f => !hasKey m f) = [] := by
        refine List.filter_eq_nil_iff.mpr ?_
        intro f hf
        rw [h f hf]
        simp
      rw [this]
      rfl

theorem C6_missing_field_defects_witness :
    "name" ∈ REQUIRED_FIELDS
    ∧ hasKey [("package", JsonVal.str "x")] "name" = false
    ∧ (fieldErrors "manifests/x.json" [("package", JsonVal.str "x")]).count
        (msgMissingField "manifests/x.json" "name") = 1 := by
  have h := (C6_missing_field_defects "manifests/x.json" [("package", JsonVal.str "x")]).2.1
    "name" (by decide)
  refine ⟨by decide, rfl, ?_⟩
  rw [h]
  rfl

/-- C7: a manifest whose bytes fail to parse contributes exactly its one
`invalid JSON` defect (no field, icon, or hash check runs on it), while the
defect list over the whole submission is the concatenation of every
manifest's defects, so all other manifests are still validated. -/
theorem C7_parse_defect (env : ValidateEnv) (p e : String)
    (h : env.manifestFile p = .malformed e) :
    validateManifest env p = [msgInvalidJson p e]
    ∧ ∀ pre post, validateErrors env (pre ++ p :: post)
        = validateErrors env pre ++ [msgInvalidJson p e] ++ validateErrors env post := by
  have h1 : validateManifest env p = [msgInvalidJson p e] := by
    unfold validateManifest
    rw [h]
  refine ⟨h1, fun pre post => ?_⟩
  rw [validateErrors_append]
  have h2 : validateErrors env (p :: post) = validateManifest env p ++ validateErrors env post :=
    rfl
  rw [h2, h1, List.append_assoc]

theorem C7_parse_defect_witness :
    venvBad.manifestFile "manifests/bad.json" = .malformed "Expecting value"
    ∧ validateManifest venvBad "manifests/bad.json"
        = [msgInvalidJson "manifests/bad.json" "Expecting value"]
    ∧ validateErrors venvBad (["manifests/ok.json"] ++ "manifests/bad.json" :: [])
        = validateErrors venvBad ["manifests/ok.json"]
            ++ [msgInvalidJson "manifests/bad.json" "Expecting value"]
            ++ validateErrors venvBad [] := by
  have h := C7_parse_defect venvBad "manifests/bad.json" "Expecting value" rfl
  exact ⟨rfl, h.1, h.2 ["manifests/ok.json"] []⟩

/-- C8: for an icon that exists and opens, the size, format, and dimension
rules each contribute their own distinct defect independently of the others
(so an icon violating both the format and the size rule gets both defects in
one pass), and a missing icon file yields exactly the missing-file defect. -/
theorem C8_icon_rules (icons : String → IconStat) (p ip : String) :
    (icons ip = .absent → iconErrors icons p ip = [msgIconMissing p ip])
    ∧ (∀ sz fmt wd ht, icons ip = .present sz (.ok ⟨fmt, wd, ht⟩) →
        ((msgIconSize ip ∈ iconErrors icons p ip ↔ sz > ICON_MAX_SIZE)
          ∧ (msgIconNotPng ip ∈ iconErrors icons p ip ↔ fmt ≠ "PNG")
          ∧ (msgIconDims ip ∈ iconErrors icons p ip
              ↔ (wd ≠ ICON_WIDTH ∨ ht ≠ ICON_HEIGHT)))) := by
  constructor
  · intro h
    unfold iconErrors
    rw [h]
  · intro sz fmt wd ht h
    unfold iconErrors
    rw [h]
    by_cases hs : sz > ICON_MAX_SIZE
      <;> by_cases hf : fmt = "PNG"
      <;> by_cases hd : (wd ≠ ICON_WIDTH ∨ ht ≠ ICON_HEIGHT)
      <;> simp [hs, hf, hd, msgIconSize_ne_notPng ip, msgIconSize_ne_dims ip,
            msgIconNotPng_ne_dims ip, (msgIconSize_ne_notPng ip).symm,
            (msgIconSize_ne_dims ip).symm, (msgIconNotPng_ne_dims ip).symm]

theorem C8_icon_rules_witness :
    iconsOversizedJpeg "icons/foo.png" = .present 5000 (.ok ⟨"JPEG", 32, 32⟩)
    ∧ msgIconSize "icons/foo.png"
        ∈ iconErrors iconsOversizedJpeg "manifests/foo.json" "icons/foo.png"
    ∧ msgIconNotPng "icons/foo.png"
        ∈ iconErrors iconsOversizedJpeg "manifests/foo.json" "icons/foo.png" := by
  have h := (C8_icon_rules iconsOversizedJpeg "manifests/foo.json" "icons/foo.png").2
    5000 "JPEG" 32 32 rfl
  exact ⟨rfl, h.1.mpr (by decide), h.2.1.mpr (by decide)⟩

/-- C1 (code bug): a validation run with zero defects posts only the success
comment, which contains no `MANIFEST_HASHES` marker, so no ledger entry is
ever recorded: every later `allow`/`deny` on the resulting `On review`
thread finds no stored hashes and is rejected with the must-validate-first
message. The `record` step the spec requires does not exist in the code. -/
theorem C1_success_records_nothing (venv : ValidateEnv) (author : String)
    (benv : BotEnv) (valExit : Nat)
    (hm : (venv.changedFiles.filter isManifestPath).isEmpty = false)
    (he : validateErrors venv (venv.changedFiles.filter isManifestPath) = [])
    (hcomments : benv.comments
      = (postedBodies (validateMain venv).actions).map (fun b => ⟨author, b⟩))
    (hbody : pyStrip benv.commentBody = "@bot allow")
    (huser : benv.commentUser = benv.moderator)
    (hlab : "On review" ∈ benv.labels) :
    postedBodies (validateMain venv).actions = [validationSuccessMsg]
    ∧ (∀ jl, find_manifest_hash_comment jl benv.comments = none)
    ∧ botMain benv valExit = ⟨[.postComment mustValidateMsg], 0⟩ := by
  have hposted : postedBodies (validateMain venv).actions = [validationSuccessMsg] := by
    simp only [validateMain, hm, he, Bool.false_eq_true, if_false, List.isEmpty_nil, if_true]
    by_cases h1 : "Invalid manifest" ∈ venv.labels
      <;> by_cases h2 : "On review" ∈ venv.labels
      <;> simp [h1, h2, postedBodies_append, postedBodies]
  have hfind : ∀ jl, find_manifest_hash_comment jl benv.comments = none := by
    intro jl
    rw [hcomments, hposted]
    show findHashIn jl ([⟨author, validationSuccessMsg⟩] : List Comment).reverse = none
    simp only [List.reverse_singleton, findHashIn,
      show strContains validationSuccessMsg MARKER_START = false from by decide,
      Bool.false_eq_true, if_false]
  refine ⟨hposted, hfind, ?_⟩
  have hbot : strContains (pyStrip benv.commentBody) "@bot" = true := by
    rw [hbody]; decide
  have hcheckf : strContains (pyStrip benv.commentBody) "@bot check" = false := by
    rw [hbody]; decide
  have hallow : strContains (pyStrip benv.commentBody) "@bot allow" = true := by
    rw [hbody]; decide
  simp only [botMain, hbot, hcheckf, hallow, Bool.not_true, Bool.false_eq_true, if_false,
    Bool.true_or, if_true, huser, ne_eq, not_true_eq_false, hlab, not_true, hfind benv.jsonLoads]

theorem C1_success_records_nothing_witness :
    validateErrors venvClean (venvClean.changedFiles.filter isManifestPath) = []
    ∧ benvAfterSuccess.comments
        = (postedBodies (validateMain venvClean).actions).map
            (fun b => (⟨"github-actions", b⟩ : Comment))
    ∧ postedBodies (validateMain venvClean).actions = [validationSuccessMsg]
    ∧ botMain benvAfterSuccess 0 = ⟨[.postComment mustValidateMsg], 0⟩ := by
  have h := C1_success_records_nothing venvClean "github-actions" benvAfterSuccess 0
    rfl rfl rfl rfl rfl (by decide)
  exact ⟨rfl, rfl, h.1, h.2.2⟩

/-- C4 (counterexample): with a malformed manifest the validation script
itself exits 1, but triggering that same validation through the dispatcher's
`@bot check` command yields process exit status 0, contradicting the claim
that the status is non-zero whenever validation defects occurred, including
through the check command. -/
theorem C4_check_exit_counterexample :
    (validateMain venvBad).exitCode = 1
    ∧ strContains (pyStrip benvCheck.commentBody) "@bot check" = true
    ∧ (botMain benvCheck (validateMain venvBad).exitCode).exitCode = 0 :=
  ⟨rfl, rfl, rfl⟩

/-- C4 (amended): the validation script's own exit status is 0 exactly when
the run found no defects; the dispatcher, however, exits 0 from its `check`
branch regardless of the validation subprocess's exit code, and also exits 0
when rejecting an unauthorized `allow`/`deny`. -/
theorem C4_exit_codes (venv : ValidateEnv) (benv benv2 : BotEnv) (valExit valExit2 : Nat)
    (hcheck : strContains (pyStrip benv.commentBody) "@bot check" = true)
    (hcmd2 : (strContains (pyStrip benv2.commentBody) "@bot allow"
              || strContains (pyStrip benv2.commentBody) "@bot deny") = true)
    (hcheck2 : strContains (pyStrip benv2.commentBody) "@bot check" = false)
    (huser2 : benv2.commentUser ≠ benv2.moderator) :
    ((validateMain venv).exitCode = 0
       ↔ validateErrors venv (venv.changedFiles.filter isManifestPath) = [])
    ∧ (botMain benv valExit).exitCode = 0
    ∧ (botMain benv2 valExit2).exitCode = 0 := by
  refine ⟨?_, ?_, ?_⟩
  · by_cases hm : (venv.changedFiles.filter isManifestPath).isEmpty = true
    · have hnil : venv.changedFiles.filter isManifestPath = [] := by
        simpa using hm
      simp [validateMain, hm, hnil, validateErrors]
    · by_cases he : (validateErrors venv (venv.changedFiles.filter isManifestPath)).isEmpty = true
      · have hnil : validateErrors venv (venv.changedFiles.filter isManifestPath) = [] := by
          simpa using he
        simp [validateMain, hm, he, hnil]
      · have hne : validateErrors venv (venv.changedFiles.filter isManifestPath) ≠ [] := by
          simpa using he
        simp [validateMain, hm, he, hne]
  · simp only [botMain, contains_bot_of_check hcheck, hcheck, Bool.not_true,
      Bool.false_eq_true, if_false, if_true]
  · simp only [botMain, contains_bot_of_cmd hcmd2, hcheck2, hcmd2, Bool.not_true,
      Bool.false_eq_true, if_false, if_true, ne_eq, huser2, not_false_eq_true]

theorem C4_exit_codes_witness :
    strContains (pyStrip benvCheck.commentBody) "@bot check" = true
    ∧ benvNonMod.commentUser ≠ benvNonMod.moderator
    ∧ (botMain benvCheck 1).exitCode = 0
    ∧ (botMain benvNonMod 0).exitCode = 0 := by
  have h := C4_exit_codes venvClean benvCheck benvNonMod 1 0 rfl rfl rfl (by decide)
  exact ⟨rfl, by decide, h.2.1, h.2.2⟩

/-- C2: an `allow` (or `deny`) by the moderator on an `On review` thread with
a recorded ledger entry, where some changed manifest path is stale (its live
digest differs from the recorded one, or the file cannot be read), is
rejected: the run posts the stale report carrying one reason per stale path,
removes the `On review` label, adds `Invalid manifest`, and never issues the
merge action. -/
theorem C2_stale_rejection (benv : BotEnv) (valExit : Nat) (c : Comment) (stored : Ledger)
    (hallow : strContains (pyStrip benv.commentBody) "@bot allow" = true)
    (hcheck : strContains (pyStrip benv.commentBody) "@bot check" = false)
    (huser : benv.commentUser = benv.moderator)
    (hlab : "On review" ∈ benv.labels)
    (hfind : find_manifest_hash_comment benv.jsonLoads benv.comments = some (c, stored))
    (p : String) (hp : p ∈ benv.changedFiles.filter isManifestPath)
    (hstale : staleMsg? stored (benv.localHash p) p ≠ none) :
    botMain benv valExit
      = ⟨[.postComment (staleReportMsg (gateMsgs benv stored)),
          .removeLabel "On review", .addLabel "Invalid manifest"], 0⟩
    ∧ (∀ q ∈ benv.changedFiles.filter isManifestPath, ∀ msg,
        staleMsg? stored (benv.localHash q) q = some msg → msg ∈ gateMsgs benv stored)
    ∧ HostAction.merge ∉ (botMain benv valExit).actions := by
  obtain ⟨msg, hmsg⟩ : ∃ msg, staleMsg? stored (benv.localHash p) p = some msg := by
    cases h : staleMsg? stored (benv.localHash p) p with
    | none => exact absurd h hstale
    | some m => exact ⟨m, rfl⟩
  have hmem : msg ∈ gateMsgs benv stored := by
    unfold gateMsgs mismatchMsgs
    exact List.mem_filterMap.mpr ⟨p, hp, hmsg⟩
  have hEmpty : (gateMsgs benv stored).isEmpty = false := by
    cases hg : gateMsgs benv stored with
    | nil => rw [hg] at hmem; cases hmem
    | cons _ _ => rfl
  have hbot := contains_bot_of_allow hallow
  have hres : botMain benv valExit
      = ⟨[.postComment (staleReportMsg (gateMsgs benv stored)),
          .removeLabel "On review", .addLabel "Invalid manifest"], 0⟩ := by
    simp only [gateMsgs] at hEmpty ⊢
    simp only [botMain, hbot, hcheck, hallow, Bool.not_true, Bool.false_eq_true, if_false,
      Bool.true_or, if_true, huser, ne_eq, not_true_eq_false, hlab, not_true, hfind,
      hEmpty, Bool.not_false]
  refine ⟨hres, ?_, ?_⟩
  · intro q hq msg2 hmsg2
    unfold gateMsgs mismatchMsgs
    exact List.mem_filterMap.mpr ⟨q, hq, hmsg2⟩
  · rw [hres]
    simp

theorem C2_stale_rejection_witness :
    find_manifest_hash_comment benvStale.jsonLoads benvStale.comments
      = some (commentA, ledgerA)
    ∧ staleMsg? ledgerA (benvStale.localHash "manifests/a.json") "manifests/a.json" ≠ none
    ∧ botMain benvStale 0
        = ⟨[.postComment (staleReportMsg (gateMsgs benvStale ledgerA)),
            .removeLabel "On review", .addLabel "Invalid manifest"], 0⟩
    ∧ HostAction.merge ∉ (botMain benvStale 0).actions := by
  have h := C2_stale_rejection benvStale 0 commentA ledgerA rfl rfl rfl (by decide) rfl
    "manifests/a.json" (by decide) (by decide)
  exact ⟨rfl, by decide, h.1, h.2.2⟩

/-- C3: for a moderator's allow/deny command the gate checks run in order and
short-circuit: a thread not labelled `On review` is rejected with no merge or
close action regardless of the ledger; a thread labelled `On review` whose
comments yield no stored hash mapping is rejected with the
must-validate-first message, again with no merge or close action. -/
theorem C3_gate_order (benv : BotEnv) (valExit : Nat)
    (hcmd : (strContains (pyStrip benv.commentBody) "@bot allow"
             || strContains (pyStrip benv.commentBody) "@bot deny") = true)
    (hcheck : strContains (pyStrip benv.commentBody) "@bot check" = false)
    (huser : benv.commentUser = benv.moderator) :
    ("On review" ∉ benv.labels →
      botMain benv valExit = ⟨[.postComment notOnReviewMsg], 0⟩
      ∧ HostAction.merge ∉ (botMain benv valExit).actions
      ∧ HostAction.closePR ∉ (botMain benv valExit).actions)
    ∧ ("On review" ∈ benv.labels →
      find_manifest_hash_comment benv.jsonLoads benv.comments = none →
      botMain benv valExit = ⟨[.postComment mustValidateMsg], 0⟩
      ∧ HostAction.merge ∉ (botMain benv valExit).actions
      ∧ HostAction.closePR ∉ (botMain benv valExit).actions) := by
  have hbot := contains_bot_of_cmd hcmd
  constructor
  · intro hlab
    have hres : botMain benv valExit = ⟨[.postComment notOnReviewMsg], 0⟩ := by
      simp only [botMain, hbot, hcheck, hcmd, Bool.not_true, Bool.false_eq_true, if_false,
        if_true, huser, ne_eq, not_true_eq_false, hlab, not_false_eq_true]
    rw [hres]
    exact ⟨rfl, by simp, by simp⟩
  · intro hlab hnone
    have hres : botMain benv valExit = ⟨[.postComment mustValidateMsg], 0⟩ := by
      simp only [botMain, hbot, hcheck, hcmd, Bool.not_true, Bool.false_eq_true, if_false,
        if_true, huser, ne_eq, not_true_eq_false, hlab, not_true, hnone]
    rw [hres]
    exact ⟨rfl, by simp, by simp⟩

theorem C3_gate_order_witness :
    "On review" ∉ benvNotOnReview.labels
    ∧ botMain benvNotOnReview 0 = ⟨[.postComment notOnReviewMsg], 0⟩
    ∧ find_manifest_hash_comment benvNoLedger.jsonLoads benvNoLedger.comments = none
    ∧ botMain benvNoLedger 0 = ⟨[.postComment mustValidateMsg], 0⟩ := by
  have h1 := (C3_gate_order benvNotOnReview 0 rfl rfl rfl).1 (by decide)
  have h2 := (C3_gate_order benvNoLedger 0 rfl rfl rfl).2 (by decide) rfl
  exact ⟨by decide, h1.1, rfl, h2.1⟩

/-- C5: an allow/deny command whose actor differs from the configured
moderator is answered only with the authorization message: the run issues no
label change, no merge, no close, and exits 0 — every action it performs is
that single comment. -/
theorem C5_unauthorized_actor (benv : BotEnv) (valExit : Nat)
    (hcmd : (strContains (pyStrip benv.commentBody) "@bot allow"
             || strContains (pyStrip benv.commentBody) "@bot deny") = true)
    (hcheck : strContains (pyStrip benv.commentBody) "@bot check" = false)
    (huser : benv.commentUser ≠ benv.moderator) :
    botMain benv valExit = ⟨[.postComment (authRejectMsg benv.moderator)], 0⟩
    ∧ ∀ a ∈ (botMain benv valExit).actions,
        a = .postComment (authRejectMsg benv.moderator) := by
  have hbot := contains_bot_of_cmd hcmd
  have hres : botMain benv valExit = ⟨[.postComment (authRejectMsg benv.moderator)], 0⟩ := by
    simp only [botMain, hbot, hcheck, hcmd, Bool.not_true, Bool.false_eq_true, if_false,
      if_true, ne_eq, huser, not_false_eq_true]
  refine ⟨hres, ?_⟩
  rw [hres]
  simp

theorem C5_unauthorized_actor_witness :
    benvNonMod.commentUser ≠ benvNonMod.moderator
    ∧ botMain benvNonMod 0 = ⟨[.postComment (authRejectMsg benvNonMod.moderator)], 0⟩ := by
  have h := C5_unauthorized_actor benvNonMod 0 rfl rfl (by decide)
  exact ⟨by decide, h.1⟩

/-- Comments whose marker block fails to extract or to parse are skipped by
the scan loop. -/
theorem findHashIn_skips (jl : String → Option Ledger) (rest : List Comment) :
    ∀ l : List Comment, (∀ c ∈ l, (extractBlock c.body).bind jl = none) →
      findHashIn jl (l ++ rest) = findHashIn jl rest := by
  intro l
  induction l with
  | nil => intro _; rfl
  | cons c cs ih =>
    intro hnone
    have hc := hnone c (List.mem_cons_self c cs)
    have hrec := ih (fun c' h => hnone c' (List.mem_cons_of_mem c h))
    show findHashIn jl (c :: (cs ++ rest)) = findHashIn jl rest
    by_cases hm : strContains c.body MARKER_START = true
    · rw [show findHashIn jl (c :: (cs ++ rest)) = findHashIn jl (cs ++ rest) by
        simp only [findHashIn, hm, if_true, hc]]
      exact hrec
    · have hm' : strContains c.body MARKER_START = false := by simpa using hm
      rw [show findHashIn jl (c :: (cs ++ rest)) = findHashIn jl (cs ++ rest) by
        simp only [findHashIn, hm', Bool.false_eq_true, if_false]]
      exact hrec

/-- The scan loop never consults comment authors: its result's ledger
component depends only on the comment bodies. -/
theorem findHashIn_bodies (jl : String → Option Ledger) :
    ∀ cs cs' : List Comment, cs.map Comment.body = cs'.map Comment.body →
      Option.map Prod.snd (findHashIn jl cs) = Option.map Prod.snd (findHashIn jl cs') := by
  intro cs
  induction cs with
  | nil =>
    intro cs' h
    cases cs' with
    | nil => rfl
    | cons _ _ => simp at h
  | cons c rest ih =>
    intro cs' h
    cases cs' with
    | nil => simp at h
    | cons c' rest' =>
      simp only [List.map_cons, List.cons.injEq] at h
      obtain ⟨hb, ht⟩ := h
      show Option.map Prod.snd (findHashIn jl (c :: rest))
        = Option.map Prod.snd (findHashIn jl (c' :: rest'))
      by_cases hm : strContains c.body MARKER_START = true
      · have hm' : strContains c'.body MARKER_START = true := hb ▸ hm
        simp only [findHashIn, hm, hm', if_true, hb]
        cases hx : (extractBlock c'.body).bind jl with
        | none => exact ih rest' ht
        | some d => rfl
      · have hm0 : strContains c.body MARKER_START = false := by simpa using hm
        have hm' : strContains c'.body MARKER_START = false := hb ▸ hm0
        simp only [findHashIn, hm0, hm', Bool.false_eq_true, if_false]
        exact ih rest' ht

/-- C9: the ledger lookup scans comments most recent first and returns the
mapping of the first one whose body contains the start marker and whose
delimited text parses, regardless of comment authors: the result depends
only on comment bodies, and any newer comments whose marker block is missing
or malformed are silently skipped in favor of an older parseable one. -/
theorem C9_ledger_scan (jl : String → Option Ledger) :
    (∀ cs cs' : List Comment, cs.map Comment.body = cs'.map Comment.body →
      Option.map Prod.snd (find_manifest_hash_comment jl cs)
        = Option.map Prod.snd (find_manifest_hash_comment jl cs'))
    ∧ (∀ (pre post : List Comment) (c : Comment) (d : Ledger),
        (extractBlock c.body).bind jl = some d →
        (∀ c' ∈ post, (extractBlock c'.body).bind jl = none) →
        find_manifest_hash_comment jl (pre ++ c :: post) = some (c, d)) := by
  constructor
  · intro cs cs' h
    unfold find_manifest_hash_comment
    refine findHashIn_bodies jl cs.reverse cs'.reverse ?_
    rw [List.map_reverse, List.map_reverse, h]
  · intro pre post c d hparse hpost
    unfold find_manifest_hash_comment
    have hrev : (pre ++ c :: post).reverse = post.reverse ++ (c :: pre.reverse) := by
      simp [List.reverse_append]
    rw [hrev, findHashIn_skips jl (c :: pre.reverse) post.reverse
      (fun c' h => hpost c' (List.mem_reverse.mp h))]
    obtain ⟨t, ht⟩ : ∃ t, extractBlock c.body = some t := by
      cases hx : extractBlock c.body with
      | none => rw [hx] at hparse; exact absurd hparse (by simp)
      | some t => exact ⟨t, rfl⟩
    have hm := strContains_of_extract ht
    simp only [findHashIn, hm, if_true, hparse]

theorem C9_ledger_scan_witness :
    ([⟨"u1", markerBodyA⟩] : List Comment).map Comment.body
      = ([⟨"u2", markerBodyA⟩] : List Comment).map Comment.body
    ∧ Option.map Prod.snd (find_manifest_hash_comment jsonLoadsA [⟨"u1", markerBodyA⟩])
        = Option.map Prod.snd (find_manifest_hash_comment jsonLoadsA [⟨"u2", markerBodyA⟩])
    ∧ (extractBlock markerBodyA).bind jsonLoadsA = some ledgerA
    ∧ (extractBlock badMarkerBody).bind jsonLoadsA = none
    ∧ find_manifest_hash_comment jsonLoadsA
        [⟨"u1", markerBodyA⟩, ⟨"u2", badMarkerBody⟩]
      = some (⟨"u1", markerBodyA⟩, ledgerA) := by
  refine ⟨rfl, (C9_ledger_scan jsonLoadsA).1 _ _ rfl, rfl, rfl, ?_⟩
  have h := (C9_ledger_scan jsonLoadsA).2 [] [⟨"u2", badMarkerBody⟩] ⟨"u1", markerBodyA⟩
    ledgerA rfl ?_
  · exact h
  · intro c' hc'
    rw [List.mem_singleton] at hc'
    subst hc'
    rfl

/-- C10: when no changed file matches `manifests/*.json`, the staleness loop
runs over an empty path list, so an `allow` on an `On review` thread with any
parseable stored hash comment proceeds straight to the merge action even
though no digest was compared. -/
theorem C10_vacuous_allow (benv : BotEnv) (valExit : Nat) (c : Comment) (stored : Ledger)
    (hallow : strContains (pyStrip benv.commentBody) "@bot allow" = true)
    (hcheck : strContains (pyStrip benv.commentBody) "@bot check" = false)
    (huser : benv.commentUser = benv.moderator)
    (hlab : "On review" ∈ benv.labels)
    (hfind : find_manifest_hash_comment benv.jsonLoads benv.comments = some (c, stored))
    (hnopaths : benv.changedFiles.filter isManifestPath = [])
    (hmerge : benv.mergeRaises = none) :
    botMain benv valExit
      = ⟨[.merge, .removeLabel "On review", .addLabel "Approved",
          .postComment mergedMsg], 0⟩
    ∧ HostAction.merge ∈ (botMain benv valExit).actions := by
  have hbot := contains_bot_of_allow hallow
  have hres : botMain benv valExit
      = ⟨[.merge, .removeLabel "On review", .addLabel "Approved",
          .postComment mergedMsg], 0⟩ := by
    simp only [botMain, hbot, hcheck, hallow, Bool.true_or, Bool.not_true, Bool.false_eq_true,
      if_false, if_true, huser, ne_eq, not_true_eq_false, hlab, not_true, hfind, hnopaths,
      mismatchMsgs, List.filterMap_nil, List.isEmpty_nil, Bool.not_true, hmerge]
  exact ⟨hres, by rw [hres]; simp⟩

theorem C10_vacuous_allow_witness :
    benvVacuous.changedFiles.filter isManifestPath = []
    ∧ botMain benvVacuous 0
        = ⟨[.merge, .removeLabel "On review", .addLabel "Approved",
            .postComment mergedMsg], 0⟩
    ∧ HostAction.merge ∈ (botMain benvVacuous 0).actions := by
  have h := C10_vacuous_allow benvVacuous 0 commentA ledgerA rfl rfl rfl (by decide) rfl rfl rfl
  exact ⟨rfl, h.1, h.2⟩

end Store1
